import Mathlib

/-!
Verification of the mjolnir graph-builder pipeline (src/mjolnir/graphbuilder.cc)
against its natural-language specification.

The C++ code is shallowly embedded: file-backed sequences become Lean lists,
fixed-width bitfields become Nat with explicit reductions modulo 2^w at the
points where the source writes into a bitfield, `uint32_t(-1)` sentinels are
the literal 4294967295, and out-of-bounds dereference of a sequence (undefined
behaviour in the source) is modelled by Option-valued functions returning none
or, where callers guarantee in-range access, by a defaulted read.
-/

set_option maxRecDepth 10000

namespace Mjolnir

/-- Sentinel used in the source for "no edge": static_cast of uint32_t(-1). -/
def noEdge : Nat := 4294967295

/-- The OSM node primitive with the attributes graphbuilder.cc reads and
writes: osmid, intersection / traffic-signal flags, directional signal flags,
and the link_edge / non_link_edge accumulation flags. -/
structure OSMNode where
  osmid : Nat
  intersection : Bool
  traffic_signal : Bool
  forward_signal : Bool
  backward_signal : Bool
  link_edge : Bool
  non_link_edge : Bool
deriving DecidableEq, Inhabited

/-- A way-node record: the node plus the index of its way (OSMWayNode). -/
structure OSMWayNode where
  node : OSMNode
  way_index : Nat
deriving DecidableEq, Inhabited

/-- The fields of OSMWay that ConstructEdges and ReclassifyLinks consume. -/
structure OSMWay where
  node_count : Nat
  road_class : Nat
  auto_forward : Bool
  auto_backward : Bool
  link : Bool
deriving DecidableEq, Inhabited

/-- GraphId: the packed uint64 of valhalla/baldr with fields level:3,
tileid:22, id:21.  The level is a fixed constant throughout graphbuilder.cc,
so we keep only tileid and id; numeric comparison of the packed word with the
level equal and fields in range is lexicographic on (id, tileid) because id
occupies the most significant of the used bits. -/
structure GraphId where
  tileid : Nat
  id : Nat
deriving DecidableEq, Inhabited

/-- operator< on the packed GraphId word (level equal, fields in range). -/
def gidLt (a b : GraphId) : Bool :=
  a.id < b.id || (a.id == b.id && a.tileid < b.tileid)

/-- Edge::EdgeAttributes — the packed attribute word.  llcount is a 16-bit
field and importance a 3-bit field; writes into them in the source are
reduced modulo 2^16 / 2^3 here. -/
structure EdgeAttributes where
  llcount : Nat
  importance : Nat
  driveableforward : Bool
  driveablereverse : Bool
  traffic_signal : Bool
  forward_signal : Bool
  backward_signal : Bool
  link : Bool
deriving DecidableEq, Inhabited

/-- An Edge record of graphbuilder.cc. -/
structure Edge where
  sourcenode : Nat
  wayindex : Nat
  llindex : Nat
  attributes : EdgeAttributes
  targetnode : Nat
deriving DecidableEq, Inhabited

/-- Edge::make_edge.  The C++ aggregate-initializes the remaining members to
zero, then fills llcount, importance, driveability and link from the way. -/
def Edge.make_edge (sourcenode wayindex llindex : Nat) (way : OSMWay) : Edge :=
  { sourcenode := sourcenode
    wayindex := wayindex
    llindex := llindex
    attributes :=
      { llcount := 1
        importance := way.road_class % 8
        driveableforward := way.auto_forward
        driveablereverse := way.auto_backward
        traffic_signal := false
        forward_signal := false
        backward_signal := false
        link := way.link }
    targetnode := 0 }

/-- A Node record of graphbuilder.cc: the OSM node, the edge it starts, the
edge it ends (noEdge when none) and its graph id. -/
structure Node where
  node : OSMNode
  start_of : Nat
  end_of : Nat
  graph_id : GraphId
deriving DecidableEq, Inhabited

def Node.is_start (n : Node) : Bool := n.start_of != noEdge

def Node.is_end (n : Node) : Bool := n.end_of != noEdge

/-- Helper mirroring `--nodes.end()` followed by a write: update the last
element of the list. -/
def setLast (f : Node → Node) : List Node → List Node
  | [] => []
  | [n] => [f n]
  | n :: rest => n :: setLast f rest

/-!
ConstructEdges (graphbuilder.cc lines 239-313)

The outer loop walks the way-node sequence way by way; the inner loop
advances through a way's nodes until an intersection-flagged node closes the
current edge.  `cur` is `current_way_node_index`; the list argument is the
suffix of the way-node sequence after position `cur` (the inner loop first
pre-increments and then dereferences, so the next record read is the head of
the suffix).  Reading past the end of the sequence — which the source would
do with `*way_nodes[++current_way_node_index]` when the way is not terminated
by an intersection — yields `none`.

Note the source's quirks kept verbatim: `start_of` / `end_of` are assigned
`ways.size()` (the way count), and a restarted edge's source node is
`nodes.size()` (one past the just-emitted node).
-/

def constructInner (pred : OSMNode → GraphId) (waysLen totalWayNodes : Nat)
    (way : OSMWay) (last_way_node_index : Nat) :
    List OSMWayNode → Nat → Edge → List Node → List Edge →
    Option (Nat × List OSMWayNode × List Node × List Edge)
  | suffix, cur, edge, ns, es =>
    if cur < totalWayNodes then
      match suffix with
      | [] => none
      | wn :: rest =>
        let cur' := cur + 1
        let edge := { edge with
          attributes := { edge.attributes with
            llcount := (edge.attributes.llcount + 1) % 65536 } }
        if wn.node.intersection then
          let edge := { edge with targetnode := ns.length }
          let endNode : OSMNode :=
            { wn.node with link_edge := wn.node.link_edge || way.link }
          let ns := ns ++ [⟨endNode, noEdge, waysLen, pred endNode⟩]
          let es := es ++ [edge]
          if cur' != last_way_node_index then
            let edge := Edge.make_edge ns.length wn.way_index cur' way
            let ns := setLast (fun n => { n with start_of := waysLen }) ns
            constructInner pred waysLen totalWayNodes way last_way_node_index
              rest cur' edge ns es
          else
            some (cur' + 1, rest, ns, es)
        else if wn.node.traffic_signal then
          constructInner pred waysLen totalWayNodes way last_way_node_index
            rest cur'
            { edge with attributes := { edge.attributes with
                traffic_signal := true
                forward_signal := wn.node.forward_signal
                backward_signal := wn.node.backward_signal } } ns es
        else
          constructInner pred waysLen totalWayNodes way last_way_node_index
            rest cur' edge ns es
    else
      some (cur, suffix, ns, es)

def constructOuter (ways : List OSMWay) (pred : OSMNode → GraphId)
    (waysLen totalWayNodes : Nat) :
    Nat → List OSMWayNode → Nat → List Node → List Edge →
    Option (List Node × List Edge)
  | 0, _, _, _, _ => none
  | fuel + 1, suffix, cur, ns, es =>
    match suffix with
    | [] => some (ns, es)
    | fwn :: rest =>
      match ways.get? fwn.way_index with
      | none => none
      | some way =>
        let last_way_node_index := cur + way.node_count - 1
        let edge := Edge.make_edge ns.length fwn.way_index cur way
        let startNode : OSMNode :=
          { fwn.node with link_edge := fwn.node.link_edge || way.link }
        let ns := ns ++ [⟨startNode, waysLen, noEdge, pred startNode⟩]
        match constructInner pred waysLen totalWayNodes way
            last_way_node_index rest cur edge ns es with
        | none => none
        | some (cur2, suffix2, ns2, es2) =>
          constructOuter ways pred waysLen totalWayNodes fuel suffix2 cur2 ns2 es2

/-- ConstructEdges.  The fuel `way_nodes.length + 1` strictly bounds the
number of outer-loop iterations: every iteration consumes at least the way's
first way-node. -/
def ConstructEdges (ways : List OSMWay) (way_nodes : List OSMWayNode)
    (pred : OSMNode → GraphId) : Option (List Node × List Edge) :=
  constructOuter ways pred ways.length way_nodes.length (way_nodes.length + 1)
    way_nodes 0 [] []

/-- A trivial graph-id predicate for concrete runs. -/
def predTriv : OSMNode → GraphId := fun _ => ⟨0, 0⟩

/-- An intersection-flagged way-node primitive with the given original id. -/
def mkIntNode (i : Nat) : OSMNode := ⟨i, true, false, false, false, false, false⟩

/-- A plain (shape-point) way-node primitive with the given original id. -/
def mkPlainNode (i : Nat) : OSMNode := ⟨i, false, false, false, false, false, false⟩

/-!
SortGraph (graphbuilder.cc lines 159-236)

Phase A sorts the node sequence by the comparator
`a.graph_id == b.graph_id ? a.osmid < b.osmid : a.graph_id < b.graph_id`
(the valhalla sequence sort is an external merge sort whose order on equal
keys is unspecified; a stable insertion sort by the same comparator stands in
for it — all concrete runs below have no equal keys beyond exact duplicates,
for which any order gives the same record multiset).

Phase B is `nodes.transform` carrying (run_index, node_index, last_node,
tiles) across iterations; `tiles` is a std::map keyed by the full GraphId, so
`(--tiles.end())->first` is its greatest key and insert does not overwrite an
existing key.  The 21-bit graph_id.id bitfield write is reduced mod 2^21.
-/

def nodeCmp (a b : Node) : Bool :=
  if a.graph_id == b.graph_id then a.node.osmid < b.node.osmid
  else gidLt a.graph_id b.graph_id

def insertBy {α : Type} (lt : α → α → Bool) (x : α) : List α → List α
  | [] => [x]
  | y :: ys => if lt x y then x :: y :: ys else y :: insertBy lt x ys

def insertionSortBy {α : Type} (lt : α → α → Bool) : List α → List α
  | [] => []
  | x :: xs => insertBy lt x (insertionSortBy lt xs)

/-- std::map insert on the (sorted, gidLt-keyed) tile map: keeps an existing
key untouched. -/
def tilesInsert (k : GraphId) (v : Nat) : List (GraphId × Nat) → List (GraphId × Nat)
  | [] => [(k, v)]
  | (k0, v0) :: rest =>
    if k == k0 then (k0, v0) :: rest
    else if gidLt k k0 then (k, v) :: (k0, v0) :: rest
    else (k0, v0) :: tilesInsert k v rest

/-- `(--tiles.end())->first`: the greatest (= last, the list is kept sorted)
key; only called on a non-empty map by SortGraph. -/
def tilesLastKey : List (GraphId × Nat) → GraphId
  | [] => ⟨0, 0⟩
  | [(k, _)] => k
  | _ :: rest => tilesLastKey rest

structure SortState where
  out : List Node
  edges : List Edge
  run_index : Nat
  node_index : Nat
  last_node : Node
  tiles : List (GraphId × Nat)
deriving DecidableEq, Inhabited

/-- The duplicate branch of the transform lambda (same tile, same osmid):
rewires the edge this record starts and/or ends to `run_index` and folds the
edge's link attribute into the record's flags, reading `last_node`'s flags
each time exactly as the source does. -/
def sortDupBranch (st : SortState) (node0 : Node) : Node × List Edge :=
  let node1 := { node0 with graph_id :=
    { node0.graph_id with id := st.last_node.graph_id.id } }
  let (node2, edges2) :=
    if node1.is_start then
      let edge := st.edges.getD node1.start_of default
      (({ node1 with node := { node1.node with
            link_edge := st.last_node.node.link_edge || edge.attributes.link
            non_link_edge := st.last_node.node.non_link_edge || !edge.attributes.link } }),
       st.edges.set node1.start_of { edge with sourcenode := st.run_index })
    else (node1, st.edges)
  if node2.is_end then
    let edge := edges2.getD node2.end_of default
    (({ node2 with node := { node2.node with
          link_edge := st.last_node.node.link_edge || edge.attributes.link
          non_link_edge := st.last_node.node.non_link_edge || !edge.attributes.link } }),
     edges2.set node2.end_of { edge with targetnode := st.run_index })
  else (node2, edges2)

/-- One iteration of the transform in SortGraph. -/
def sortStep (st : SortState) (node0 : Node) : SortState :=
  let (node1, edges1, tiles1, runback) :=
    if st.node_index == 0 || node0.graph_id != tilesLastKey st.tiles then
      (({ node0 with graph_id := { node0.graph_id with id := 0 } }), st.edges,
        tilesInsert node0.graph_id st.node_index st.tiles, st.node_index != 0)
    else if st.last_node.node.osmid != node0.node.osmid then
      (({ node0 with graph_id :=
          { node0.graph_id with id := (st.last_node.graph_id.id + 1) % 2097152 } }),
        st.edges, st.tiles, true)
    else
      let (n, es) := sortDupBranch st node0
      (n, es, st.tiles, false)
  let (out1, run1) :=
    if runback then (st.out.set st.run_index st.last_node, st.node_index)
    else (st.out, st.run_index)
  { out := out1 ++ [node1]
    edges := edges1
    run_index := run1
    node_index := st.node_index + 1
    last_node := node1
    tiles := tiles1 }

/-- SortGraph: sort, then the stateful forward transform.  Returns the node
sequence, the edge sequence and the tile map. -/
def SortGraph (nodes : List Node) (edges : List Edge) :
    List Node × List Edge × List (GraphId × Nat) :=
  let sorted := insertionSortBy nodeCmp nodes
  let final := sorted.foldl sortStep ⟨[], edges, 0, 0, default, []⟩
  (final.out, final.edges, final.tiles)

/-!
Concrete runs for C1, C2, C3 (counterexample) and C5
-/

/-- C2 input: a single way of three intersection-flagged way-nodes. -/
def c2way : OSMWay := ⟨3, 5, true, true, false⟩

/-- C2: for every Node with non-sentinel start_of, the claim wants
edges[start_of].source_node to be that Node's index (and the mid-way patch to
store the new edge's index).  The code instead stores ways.size() (= 1 here)
into start_of / end_of — on this input the only valid edge indices are 0 and
1-of-2, and the node emitted at index 0 starts edge 0, not edge 1 — and the
restarted edge's source_node is nodes.size() = 2, one past the just-emitted
node at index 1.  This run evaluates ConstructEdges and exhibits all of it:
nodes[0].start_of = 1, nodes[1].start_of = nodes[1].end_of = 1, while
edges[1].source_node = 2 and the edge actually started by node 0 is edge 0. -/
theorem C2_construct_eval :
    (ConstructEdges [c2way]
        [⟨mkIntNode 10, 0⟩, ⟨mkIntNode 11, 0⟩, ⟨mkIntNode 12, 0⟩] predTriv).map
      (fun p => ((p.1.getD 0 default).start_of, (p.1.getD 1 default).start_of,
                 (p.1.getD 1 default).end_of, (p.1.getD 2 default).end_of,
                 p.1.length, p.2.length,
                 (p.2.getD 0 default).sourcenode, (p.2.getD 0 default).targetnode,
                 (p.2.getD 1 default).sourcenode, (p.2.getD 1 default).targetnode))
      = some (1, 1, 1, 1, 3, 2, 0, 1, 2, 2) := by
  rfl

/-- C3 counterexample inputs: way 0 has two way-nodes whose second (last) is
NOT intersection-flagged; way 1 has two flagged way-nodes. -/
def c3w0 : OSMWay := ⟨2, 5, true, true, false⟩

def c3w1 : OSMWay := ⟨2, 5, true, true, false⟩

/-- C3 counterexample: the claim says the edge constructor closes the current
edge at a way-node with the intersection flag set or at the last way-node of
the way, whichever comes first, and that no edge spans two ways.  On this
input the last way-node of way 0 is unflagged: the code does not close there,
keeps consuming way 1's way-nodes into the same edge, and finally
pre-increments past the end of the way-node sequence (undefined behaviour in
the source, `none` in the embedding) — so no closing at the last way-node
happens at all. -/
theorem C3_counterexample :
    ConstructEdges [c3w0, c3w1]
        [⟨mkIntNode 10, 0⟩, ⟨mkPlainNode 11, 0⟩, ⟨mkIntNode 12, 1⟩, ⟨mkIntNode 13, 1⟩]
        predTriv = none
      ∧ (mkPlainNode 11).intersection = false ∧ c3w0.node_count = 2 := by
  decide

/-- C1 input: two records of distinct original ids in the same tile, swapped
by the sort; the edge references them by their pre-sort positions. -/
def c1n0 : Node := ⟨mkIntNode 5, 0, noEdge, ⟨1, 0⟩⟩

def c1n1 : Node := ⟨mkIntNode 3, noEdge, 0, ⟨1, 0⟩⟩

def c1e0 : Edge := { Edge.make_edge 0 0 0 ⟨2, 5, true, true, false⟩ with targetnode := 1 }

/-- C1: the claim wants every edge endpoint to equal the canonical (first)
position of the duplicate run of the referenced node after SortGraph.  The
transform only rewires edges referenced from non-first records of a run;
records that are first in their run (every record here — both runs have
length one) never rewire their edge, so the edge keeps its pre-sort indices:
source_node stays 0, where the osmid-3 record now sits, although the edge's
source was the osmid-5 record, whose canonical position is 1. -/
theorem C1_sortgraph_eval :
    (SortGraph [c1n0, c1n1] [c1e0]).2.1 = [c1e0]
      ∧ ((SortGraph [c1n0, c1n1] [c1e0]).1.getD 0 default).node.osmid = 3
      ∧ ((SortGraph [c1n0, c1n1] [c1e0]).1.getD 1 default).node.osmid = 5
      ∧ c1e0.sourcenode = 0 ∧ c1e0.targetnode = 1
      ∧ c1n0.node.osmid = 5 ∧ c1n1.node.osmid = 3 := by
  decide

/-- C5 inputs: one duplicate run of two records of osmid 7 (the final — and
only — run of the sequence); the second record starts a link edge and carries
link_edge = true, the first starts a non-link edge and carries false. -/
def c5r0 : Node := ⟨mkIntNode 7, 0, noEdge, ⟨1, 0⟩⟩

def c5r1 : Node := ⟨{ mkIntNode 7 with link_edge := true }, 1, noEdge, ⟨1, 0⟩⟩

def c5e0 : Edge := { Edge.make_edge 0 0 0 ⟨2, 5, true, true, false⟩ with targetnode := 2 }

def c5e1 : Edge := { Edge.make_edge 1 1 5 ⟨2, 6, true, true, true⟩ with targetnode := 3 }

/-- C5: the claim wants the first (canonical) record of every duplicate run —
the final run included — to carry the OR-reduction of the run's link_edge /
non_link_edge flags, written back at its original position.  The transform
only writes a run's accumulated record back when the NEXT run begins, so the
final run is never flushed: after SortGraph the canonical record at position
0 still has link_edge = false although the run's other record has
link_edge = true (the OR the code itself accumulated, left stranded at
position 1). -/
theorem C5_sortgraph_eval :
    ((SortGraph [c5r1, c5r0] [c5e0, c5e1]).1.getD 0 default).node.link_edge = false
      ∧ ((SortGraph [c5r1, c5r0] [c5e0, c5e1]).1.getD 1 default).node.link_edge = true
      ∧ ((SortGraph [c5r1, c5r0] [c5e0, c5e1]).1.getD 0 default).node.osmid = 7
      ∧ ((SortGraph [c5r1, c5r0] [c5e0, c5e1]).1.getD 1 default).node.osmid = 7
      ∧ c5e1.attributes.link = true ∧ c5r1.node.link_edge = true := by
  decide

/-!
collect_node_edges (graphbuilder.cc lines 111-135)

The bundle copies the record at the iterator, then iterates from the NEXT
record (`for(++itr; ...)`) while the osmid matches, collecting the (edge,
edge-position) pairs reached through each such record's start_of / end_of.
`node_count` is the iterator distance `itr - node_itr`.  The function takes
the caller's iterator by const reference, so the caller's iterator is NOT
advanced; in this pure embedding the caller adds node_count itself, as
ReclassifyLinks does (BuildTileSet does not, and loops forever).
-/

structure NodeBundle where
  node : Node
  node_count : Nat
  edges : List (Edge × Nat)
deriving DecidableEq, Inhabited

def collectLoop (edges : List Edge) (osmid : Nat) :
    List Node → List (Edge × Nat) → Nat → List (Edge × Nat) × Nat
  | [], acc, dups => (acc, dups)
  | node :: rest, acc, dups =>
    if node.node.osmid == osmid then
      let acc := if node.is_start
        then acc ++ [(edges.getD node.start_of default, node.start_of)] else acc
      let acc := if node.is_end
        then acc ++ [(edges.getD node.end_of default, node.end_of)] else acc
      collectLoop edges osmid rest acc (dups + 1)
    else (acc, dups)

def collect_node_edges (nodes : List Node) (edges : List Edge) (pos : Nat) :
    NodeBundle :=
  let first := nodes.getD pos default
  let (pairs, dups) := collectLoop edges first.node.osmid (nodes.drop (pos + 1)) [] 0
  { node := first, node_count := 1 + dups, edges := pairs }

/-- C4 input: a single-record duplicate run whose record starts edge 0. -/
def c4n0 : Node := ⟨mkIntNode 9, 0, noEdge, ⟨1, 0⟩⟩

def c4e0 : Edge := Edge.make_edge 0 0 0 ⟨2, 5, true, true, false⟩

/-- C4: the claim wants the bundle to hold one (edge, position) pair for each
non-sentinel start_of / end_of across ALL records of the run, the first
record included, and the caller's iterator advanced past the run.  The loop
starts at the record after the iterator, so on a run of one record whose
start_of = 0 is a valid edge index the bundle's edge list is empty (the first
record's edges are never read), while node_count is 1; and the iterator,
passed by const reference, is left where it was. -/
theorem C4_collect_eval :
    (collect_node_edges [c4n0] [c4e0] 0).edges = []
      ∧ (collect_node_edges [c4n0] [c4e0] 0).node_count = 1
      ∧ c4n0.is_start = true ∧ c4n0.start_of = 0 := by
  decide

/-!
GetBestNonLinkClass (graphbuilder.cc lines 143-152) and kAbsurdRoadClass
-/

def kAbsurdRoadClass : Nat := 777777

def GetBestNonLinkClass (edges : List (Edge × Nat)) : Nat :=
  edges.foldl
    (fun bestrc p =>
      if !p.1.attributes.link then
        if p.1.attributes.importance < bestrc then p.1.attributes.importance
        else bestrc
      else bestrc)
    kAbsurdRoadClass

/-- Fold invariant for GetBestNonLinkClass over all-link edge lists. -/
theorem GetBestNonLinkClass_all_link_aux (edges : List (Edge × Nat)) :
    ∀ b : Nat, (∀ p ∈ edges, p.1.attributes.link = true) →
    edges.foldl
      (fun bestrc p =>
        if !p.1.attributes.link then
          if p.1.attributes.importance < bestrc then p.1.attributes.importance
          else bestrc
        else bestrc)
      b = b := by
  induction edges with
  | nil => intro b _; rfl
  | cons p rest ih =>
    intro b h
    have hp : p.1.attributes.link = true := h p (List.mem_cons_self p rest)
    have hrest : ∀ q ∈ rest, q.1.attributes.link = true := fun q hq =>
      h q (List.mem_cons_of_mem p hq)
    simp only [List.foldl_cons, hp, Bool.not_true, Bool.false_eq_true, if_false]
    exact ih b hrest

/-- C10: for an edge list in which every edge has the link attribute set,
GetBestNonLinkClass never updates its accumulator and returns the sentinel
kAbsurdRoadClass = 777777, which exceeds the largest value (2^3 - 1 = 7) the
3-bit importance field can hold. -/
theorem C10_all_link_absurd (edges : List (Edge × Nat))
    (h : ∀ p ∈ edges, p.1.attributes.link = true) :
    GetBestNonLinkClass edges = kAbsurdRoadClass ∧ 2 ^ 3 - 1 < kAbsurdRoadClass := by
  constructor
  · exact GetBestNonLinkClass_all_link_aux edges kAbsurdRoadClass h
  · decide

/-- Witness for C10 at a concrete one-link-edge list. -/
theorem C10_all_link_absurd_witness :
    GetBestNonLinkClass [(Edge.make_edge 0 0 0 ⟨2, 5, true, true, true⟩, 0)]
        = kAbsurdRoadClass ∧ 2 ^ 3 - 1 < kAbsurdRoadClass :=
  C10_all_link_absurd [(Edge.make_edge 0 0 0 ⟨2, 5, true, true, true⟩, 0)]
    (by decide)

/-!
ReclassifyLinks (graphbuilder.cc lines 317-430)

The visited / expand sets are std::unordered_set; popping `*expandset.begin()`
depends on the hash order, which the embedding resolves by keeping the set as
a sorted duplicate-free list and popping its minimum (every concrete run used
below keeps the expand set empty, so the choice is immaterial there).  The
statistics accumulator is reduced to the count of unconnected-link issues,
and the local `count` of reclassified edges is returned as well; the `ways`
sequence is consulted by the source only to log the way id of an issue, which
the issue count models.  Assigning `rc` into the 3-bit importance bitfield is
reduced mod 8.
-/

def setInsert (x : Nat) : List Nat → List Nat
  | [] => [x]
  | y :: ys =>
    if x = y then y :: ys
    else if x < y then x :: y :: ys
    else y :: setInsert x ys

/-- The `expand` lambda: record the best non-link class of the far node in
endrc when that node has a non-link edge, otherwise put it on the expand
set.  (When the edge does not start at the handed-in iterator's position the
source uses that same iterator as the "end node".) -/
def reclassifyExpand (nodes : List Node) (edges : List Edge) (edge : Edge)
    (pos : Nat) (endrc : List Nat) (expandset : List Nat) :
    List Nat × List Nat :=
  let end_pos := if edge.sourcenode == pos then edge.targetnode else pos
  let end_node := (nodes.getD end_pos default).node
  if end_node.non_link_edge then
    (endrc ++ [GetBestNonLinkClass (collect_node_edges nodes edges end_pos).edges],
     expandset)
  else
    (endrc, setInsert end_pos expandset)

/-- The block run when the expand set empties (lines 377-398): fewer than two
endrc entries records an unconnected-link issue; otherwise each edge index on
`linkidxs` has its importance raised to the second entry of the sorted endrc,
but only when that value is numerically greater than the current one. -/
def reclassifyFinish (endrc : List Nat) (linkidxs : List Nat)
    (edges : List Edge) (unconnected count : Nat) :
    List Edge × Nat × Nat :=
  if endrc.length < 2 then (edges, unconnected + 1, count)
  else
    let rc := (insertionSortBy (fun a b : Nat => a < b) endrc).getD 1 0
    linkidxs.foldl
      (fun st idx =>
        let edge := st.1.getD idx default
        if rc > edge.attributes.importance then
          (st.1.set idx { edge with attributes :=
              { edge.attributes with importance := rc % 8 } },
           st.2.1, st.2.2 + 1)
        else st)
      (edges, unconnected, count)

/-- The bounded (512 iterations) expansion loop of one start edge. -/
def reclassifyLoop (nodes : List Node) (startEdgeIdx : Nat) :
    Nat → List Nat → List Nat → List Nat → List Nat → List Edge → Nat → Nat →
    List Nat × List Edge × Nat × Nat
  | 0, _, _, endrc, _, edges, unconnected, count =>
    (endrc, edges, unconnected, count)
  | fuel + 1, expandset, visited, endrc, linkidxs, edges, unconnected, count =>
    match expandset with
    | [] =>
      let (edges', unconnected', count') :=
        reclassifyFinish endrc linkidxs edges unconnected count
      (endrc, edges', unconnected', count')
    | p :: restExpand =>
      let visited := setInsert p visited
      let expanded := collect_node_edges nodes edges p
      let (endrc, expandset) :=
        expanded.edges.foldl
          (fun st pr =>
            if pr.2 == startEdgeIdx then st
            else if !pr.1.attributes.link then st
            else reclassifyExpand nodes edges pr.1 p st.1 st.2)
          (endrc, restExpand)
      reclassifyLoop nodes startEdgeIdx fuel expandset visited endrc linkidxs
        edges unconnected count

/-- The loop over a node's bundle edges: each link edge seeds a fresh
visited / expand set and traversed list (containing only the start edge's
index) and runs the bounded expansion; endrc persists across start edges of
the same node, exactly as in the source, where only the sets and the
traversed list are cleared inside this loop. -/
def reclassifyStartLoop (nodes : List Node) (pos : Nat) :
    List (Edge × Nat) → List Nat → List Edge → Nat → Nat →
    List Edge × Nat × Nat
  | [], _, edges, unconnected, count => (edges, unconnected, count)
  | (e, i) :: rest, endrc, edges, unconnected, count =>
    if !e.attributes.link then
      reclassifyStartLoop nodes pos rest endrc edges unconnected count
    else
      let linkidxs := [i]
      let (endrc, expandset) := reclassifyExpand nodes edges e pos endrc []
      let (endrc', edges', unconnected', count') :=
        reclassifyLoop nodes i 512 expandset [] endrc linkidxs
          edges unconnected count
      reclassifyStartLoop nodes pos rest endrc' edges' unconnected' count'

/-- The outer loop over duplicate runs; the iterator is advanced by the
bundle's node_count (as the ReclassifyLinks caller does).  The fuel strictly
bounds the number of iterations: node_count is at least 1, so
`nodes.length + 1` iterations always reach the end. -/
def reclassifyNodeLoop (nodes : List Node) :
    Nat → Nat → List Edge → Nat → Nat → List Edge × Nat × Nat
  | 0, _, edges, unconnected, count => (edges, unconnected, count)
  | fuel + 1, pos, edges, unconnected, count =>
    if pos < nodes.length then
      let bundle := collect_node_edges nodes edges pos
      let (edges', unconnected', count') :=
        if bundle.node.node.link_edge && bundle.node.node.non_link_edge then
          let endrc := [GetBestNonLinkClass bundle.edges]
          reclassifyStartLoop nodes pos bundle.edges endrc edges unconnected count
        else (edges, unconnected, count)
      reclassifyNodeLoop nodes fuel (pos + bundle.node_count) edges' unconnected' count'
    else (edges, unconnected, count)

/-- ReclassifyLinks: returns the updated edge sequence, the count of
unconnected-link issues and the count of reclassified edges. -/
def ReclassifyLinks (nodes : List Node) (edges : List Edge) :
    List Edge × Nat × Nat :=
  reclassifyNodeLoop nodes (nodes.length + 1) 0 edges 0 0

/-!
C6 concrete run

Two duplicate runs of two records each.  The start node's run carries
link_edge = non_link_edge = true, its second record starts the link edge 0
(importance 5); the far node's run carries non_link_edge = true but its
collected bundle contains only that same link edge.  Both GetBestNonLinkClass
calls therefore return the sentinel 777777, endrc becomes
[777777, 777777], its second-smallest entry 777777 passes the `rc >
importance` guard, and the assignment into the 3-bit field stores
777777 mod 8 = 1 — LOWERING the importance from 5 to 1.
-/

def c6a0 : Node :=
  ⟨{ mkIntNode 1 with link_edge := true, non_link_edge := true }, noEdge, noEdge, ⟨1, 0⟩⟩

def c6a1 : Node := ⟨mkIntNode 1, 0, noEdge, ⟨1, 0⟩⟩

def c6b0 : Node :=
  ⟨{ mkIntNode 2 with non_link_edge := true }, noEdge, noEdge, ⟨1, 0⟩⟩

def c6b1 : Node := ⟨mkIntNode 2, noEdge, 0, ⟨1, 0⟩⟩

def c6e0 : Edge := { Edge.make_edge 0 0 0 ⟨2, 5, true, true, true⟩ with targetnode := 2 }

/-- C6: the claim says that when the frontier empties with at least two endrc
entries every traversed link edge's importance is set to the second-smallest
endrc value, only when greater than the current one — hence importance never
decreases.  Evaluating ReclassifyLinks on the run above: edge 0's importance
drops from 5 to 777777 mod 8 = 1 (the 3-bit bitfield truncates the absurd
sentinel), so the post-reclassification importance is strictly BELOW the
pre-reclassification one, and no issue is recorded. -/
theorem C6_reclassify_eval :
    ((ReclassifyLinks [c6a0, c6a1, c6b0, c6b1] [c6e0]).1.getD 0 default).attributes.importance = 1
      ∧ c6e0.attributes.importance = 5
      ∧ (ReclassifyLinks [c6a0, c6a1, c6b0, c6b1] [c6e0]).2.1 = 0
      ∧ (ReclassifyLinks [c6a0, c6a1, c6b0, c6b1] [c6e0]).2.2 = 1
      ∧ (1 : Nat) < 5 := by
  decide

/-!
GraphBuilder::Build thread bookkeeping (lines 1003-1032) and
BuildLocalTiles (lines 943-995)

Build computes
`threads = std::max(1u, pt.get<unsigned int>("concurrency", hardware))`
but then invokes `BuildLocalTiles(level, ...)` — the tile-hierarchy level,
not `threads` — as the thread_count argument, and BuildLocalTiles allocates
exactly thread_count workers (`std::vector<std::thread> threads(thread_count)`).
-/

structure BuildConfig where
  concurrency : Option Nat
  hardwareConcurrency : Nat
  level : Nat
deriving DecidableEq, Inhabited

/-- The `threads` local computed (and never used) by GraphBuilder::Build. -/
def buildComputedThreads (c : BuildConfig) : Nat :=
  max 1 (c.concurrency.getD c.hardwareConcurrency)

/-- The thread_count argument Build actually passes to BuildLocalTiles. -/
def buildLocalTilesArg (c : BuildConfig) : Nat := c.level

/-- The number of workers BuildLocalTiles creates from its thread_count. -/
def buildLocalTilesWorkers (thread_count : Nat) : Nat := thread_count

/-- C7: the claim says the tile-building stage uses `concurrency` workers
when configured (hardware concurrency otherwise), floored at 1.  With
concurrency = 4, hardware = 8 and a last hierarchy level of 2, Build computes
threads = 4 but starts buildLocalTilesWorkers (buildLocalTilesArg ...) = 2
workers — the hierarchy LEVEL, not the configured concurrency. -/
theorem C7_thread_count_eval :
    buildLocalTilesWorkers (buildLocalTilesArg ⟨some 4, 8, 2⟩) = 2
      ∧ buildComputedThreads ⟨some 4, 8, 2⟩ = 4
      ∧ buildLocalTilesWorkers (buildLocalTilesArg ⟨some 4, 8, 2⟩)
          ≠ buildComputedThreads ⟨some 4, 8, 2⟩ := by
  decide

/-!
Worker-outcome collection of BuildLocalTiles (lines 975-995)

After joining every worker thread, the driver loops over the promises; a
worker's stored exception is rethrown by `result.get_future().get()` inside
the `try` and swallowed by the empty catch block, so BuildLocalTiles always
returns normally.  Worker outcomes are modelled as `Except String Nat`
(exception payload or the worker's statistic, reduced to a single counter
that AddStatistics sums). -/

def collectWorkerResults (results : List (Except String Nat)) (stats : Nat) : Nat :=
  results.foldl
    (fun acc r =>
      match r with
      | Except.ok s => acc + s
      | Except.error _ => acc)
    stats

/-- BuildLocalTiles returns void and never rethrows: its outcome, seen from
GraphBuilder::Build, is always a normal return carrying the accumulated
statistics. -/
def buildLocalTilesOutcome (results : List (Except String Nat)) :
    Except String Nat :=
  Except.ok (collectWorkerResults results 0)

/-- C8: the claim says a recorded worker exception is surfaced to the
driver's caller after all workers are joined.  With one failed and one
successful worker the driver still returns a normal outcome (the exception is
caught and discarded by the empty catch block) — though, matching the
claim's other half, the successful worker is not cancelled and its statistics
are still accumulated. -/
theorem C8_exception_swallowed_eval :
    buildLocalTilesOutcome [Except.error "tile failure", Except.ok 3] = Except.ok 3
      ∧ ∀ results : List (Except String Nat),
          ∃ s : Nat, buildLocalTilesOutcome results = Except.ok s := by
  constructor
  · rfl
  · intro results
    exact ⟨collectWorkerResults results 0, rfl⟩

/-!
GraphBuilder::GetRef (lines 1036-1065)

Strings are embedded as `List Char`.  The helper GetTagTokens lives in
mjolnir/util.cc, which is not part of src/; it is modelled from the spec
below.
-/

/-- Modelled from the spec: GetTagTokens (mjolnir/util.cc, not in src/)
splits a tag value on a delimiter character — the spec describes `way_ref`
and `relation_ref` as "semicolon-separated" lists and `REF|DIR` pairs.
`splitCharAux` returns the first token and the remaining tokens. -/
def splitCharAux (d : Char) : List Char → List Char × List (List Char)
  | [] => ([], [])
  | c :: rest =>
    let (t, ts) := splitCharAux d rest
    if c = d then ([], t :: ts) else (c :: t, ts)

/-- Modelled from the spec: split a string on the delimiter `d`; always
returns at least one (possibly empty) token. -/
def splitChar (d : Char) (s : List Char) : List (List Char) :=
  (splitCharAux d s).1 :: (splitCharAux d s).2

/-- The inner loop of GetRef: find the first `REF|DIR` entry whose '|'-split
has exactly two parts and whose first part equals `ref`; return the DIR. -/
def findDirTok (ref : List Char) : List (List Char) → Option (List Char)
  | [] => none
  | rd :: rest =>
    let tmp := splitChar '|' rd
    if tmp.length = 2 ∧ tmp.getD 0 [] = ref then some (tmp.getD 1 [])
    else findDirTok ref rest

/-- One way ref processed against the relation pairs: `ref ++ " " ++ dir` on
a match, the bare ref otherwise. -/
def processRefTok (refdirs : List (List Char)) (ref : List Char) : List Char :=
  match findDirTok ref refdirs with
  | some dir => ref ++ ' ' :: dir
  | none => ref

/-- The accumulation of `refs` in GetRef:
`if (!refs.empty()) refs += ";" + ref; else refs = ref;`. -/
def joinRefs (ts : List (List Char)) : List Char :=
  ts.foldl (fun refs ref => if refs = [] then ref else refs ++ ';' :: ref) []

/-- GraphBuilder::GetRef. -/
def GetRef (way_ref relation_ref : List Char) : List Char :=
  joinRefs ((splitChar ';' way_ref).map (processRefTok (splitChar ';' relation_ref)))

/-- The output format in the spec's words (§4.7): the way's refs in order,
';'-separated, each with its direction appended when a pair matches.  Used to
compare GetRef's imperative accumulation against the specified shape. -/
def specRefJoin : List (List Char) → List Char
  | [] => []
  | t :: rest => t ++ (rest.map (fun u => ';' :: u)).flatten

def c9w : List Char := ['A']

def c9r : List Char := ['A', '|', 'B', ';', 'A', ' ', 'B', '|', 'C']

/-- C9 counterexample: GetRef is not idempotent in its first argument.  With
way_ref "A" and relation_ref "A|B;A B|C" the first application yields "A B"
(pair A|B matches), and the second application matches the pair "A B|C"
against the already-directed ref, yielding "A B C". -/
theorem C9_counterexample :
    GetRef (GetRef c9w c9r) c9r ≠ GetRef c9w c9r := by
  decide

/-!
Lemmas about splitChar, joinRefs and processRefTok, leading to the
amended idempotence statement for C9
-/

theorem splitCharAux_not_mem (d : Char) :
    ∀ s : List Char,
      d ∉ (splitCharAux d s).1 ∧ ∀ t ∈ (splitCharAux d s).2, d ∉ t := by
  intro s
  induction s with
  | nil => simp [splitCharAux]
  | cons c rest ih =>
    obtain ⟨ih1, ih2⟩ := ih
    by_cases hc : c = d
    · refine ⟨by simp [splitCharAux, hc], ?_⟩
      intro t ht
      simp only [splitCharAux, hc, if_pos rfl] at ht
      rcases List.mem_cons.mp ht with h | h
      · exact h ▸ ih1
      · exact ih2 t h
    · constructor
      · intro hmem
        simp only [splitCharAux, if_neg hc] at hmem
        rcases List.mem_cons.mp hmem with h | h
        · exact hc h.symm
        · exact ih1 h
      · intro t ht
        simp only [splitCharAux, if_neg hc] at ht
        exact ih2 t ht

theorem splitCharAux_mem (d : Char) :
    ∀ s : List Char,
      (∀ c ∈ (splitCharAux d s).1, c ∈ s)
        ∧ ∀ t ∈ (splitCharAux d s).2, ∀ c ∈ t, c ∈ s := by
  intro s
  induction s with
  | nil => simp [splitCharAux]
  | cons c rest ih =>
    obtain ⟨ih1, ih2⟩ := ih
    by_cases hc : c = d
    · refine ⟨by simp [splitCharAux, hc], ?_⟩
      intro t ht c' hc'
      simp only [splitCharAux, hc, if_pos rfl] at ht
      rcases List.mem_cons.mp ht with h | h
      · exact List.mem_cons_of_mem _ (ih1 c' (h ▸ hc'))
      · exact List.mem_cons_of_mem _ (ih2 t h c' hc')
    · constructor
      · intro c' hc'
        simp only [splitCharAux, if_neg hc] at hc'
        rcases List.mem_cons.mp hc' with h | h
        · exact h ▸ List.mem_cons_self _ _
        · exact List.mem_cons_of_mem _ (ih1 c' h)
      · intro t ht c' hc'
        simp only [splitCharAux, if_neg hc] at ht
        exact List.mem_cons_of_mem _ (ih2 t ht c' hc')

theorem splitChar_not_mem (d : Char) (s : List Char) :
    ∀ t ∈ splitChar d s, d ∉ t := by
  intro t ht
  rcases List.mem_cons.mp ht with h | h
  · exact h ▸ (splitCharAux_not_mem d s).1
  · exact (splitCharAux_not_mem d s).2 t h

theorem splitChar_mem (d : Char) (s t : List Char) (c : Char)
    (ht : t ∈ splitChar d s) (hc : c ∈ t) : c ∈ s := by
  rcases List.mem_cons.mp ht with h | h
  · exact (splitCharAux_mem d s).1 c (h ▸ hc)
  · exact (splitCharAux_mem d s).2 t h c hc

theorem splitCharAux_no_delim (d : Char) :
    ∀ t : List Char, d ∉ t → splitCharAux d t = (t, []) := by
  intro t
  induction t with
  | nil => intro _; rfl
  | cons c rest ih =>
    intro h
    have hc : ¬c = d := fun hcd => h (hcd ▸ List.mem_cons_self c rest)
    have hrest : d ∉ rest := fun hr => h (List.mem_cons_of_mem c hr)
    simp [splitCharAux, hc, ih hrest]

theorem splitCharAux_append (d : Char) (s : List Char) :
    ∀ t : List Char, d ∉ t →
      splitCharAux d (t ++ d :: s) = (t, (splitCharAux d s).1 :: (splitCharAux d s).2) := by
  intro t
  induction t with
  | nil => intro _; simp [splitCharAux]
  | cons c rest ih =>
    intro h
    have hc : ¬c = d := fun hcd => h (hcd ▸ List.mem_cons_self c rest)
    have hrest : d ∉ rest := fun hr => h (List.mem_cons_of_mem c hr)
    simp [splitCharAux, hc, ih hrest]

theorem splitChar_no_delim (d : Char) (t : List Char) (h : d ∉ t) :
    splitChar d t = [t] := by
  simp [splitChar, splitCharAux_no_delim d t h]

theorem splitChar_append (d : Char) (t s : List Char) (h : d ∉ t) :
    splitChar d (t ++ d :: s) = t :: splitChar d s := by
  simp [splitChar, splitCharAux_append d s t h]

theorem specRefJoin_cons₂ (t u : List Char) (rest : List (List Char)) :
    specRefJoin (t :: u :: rest) = t ++ ';' :: specRefJoin (u :: rest) := by
  simp [specRefJoin]

theorem splitChar_specRefJoin :
    ∀ L : List (List Char), L ≠ [] → (∀ t ∈ L, ';' ∉ t) →
      splitChar ';' (specRefJoin L) = L := by
  intro L
  induction L with
  | nil => intro h; exact absurd rfl h
  | cons t rest ih =>
    intro _ hfree
    have hft : ';' ∉ t := hfree t (List.mem_cons_self t rest)
    match rest with
    | [] =>
      show splitChar ';' (specRefJoin [t]) = [t]
      have : specRefJoin [t] = t := by simp [specRefJoin]
      rw [this, splitChar_no_delim ';' t hft]
    | u :: rest' =>
      rw [specRefJoin_cons₂, splitChar_append ';' t _ hft,
        ih (List.cons_ne_nil u rest')
          (fun x hx => hfree x (List.mem_cons_of_mem t hx))]

theorem joinRefs_cons_nil (L : List (List Char)) :
    joinRefs ([] :: L) = joinRefs L := by
  simp [joinRefs]

theorem joinRefs_foldl_nonempty :
    ∀ (L : List (List Char)) (acc : List Char), acc ≠ [] →
      L.foldl (fun refs ref => if refs = [] then ref else refs ++ ';' :: ref) acc
        = acc ++ (L.map (fun u => ';' :: u)).flatten := by
  intro L
  induction L with
  | nil => intro acc _; simp
  | cons t rest ih =>
    intro acc hacc
    have hstep : (if acc = [] then t else acc ++ ';' :: t) = acc ++ ';' :: t :=
      if_neg hacc
    have hne : acc ++ ';' :: t ≠ [] := by simp
    simp only [List.foldl_cons, hstep, ih (acc ++ ';' :: t) hne,
      List.map_cons, List.flatten_cons, List.append_assoc]

theorem joinRefs_cons_ne_nil (t : List Char) (L : List (List Char)) (ht : t ≠ []) :
    joinRefs (t :: L) = specRefJoin (t :: L) := by
  show List.foldl _ _ (t :: L) = _
  rw [List.foldl_cons]
  have h0 : (if ([] : List Char) = [] then t else [] ++ ';' :: t) = t := if_pos rfl
  rw [h0, joinRefs_foldl_nonempty L t ht]
  rfl

theorem joinRefs_dropWhile (L : List (List Char)) :
    joinRefs L = joinRefs (L.dropWhile (fun t => t.isEmpty)) := by
  induction L with
  | nil => rfl
  | cons t rest ih =>
    by_cases h : t.isEmpty
    · have ht : t = [] := List.isEmpty_iff.mp h
      rw [ht, joinRefs_cons_nil, ih, List.dropWhile_cons]
      simp [h, ht]
    · rw [List.dropWhile_cons]
      simp [h]

theorem dropWhile_nil_forall {α : Type} (p : α → Bool) :
    ∀ l : List α, l.dropWhile p = [] → ∀ x ∈ l, p x = true := by
  intro l
  induction l with
  | nil => intro _ x hx; cases hx
  | cons a rest ih =>
    intro h x hx
    rw [List.dropWhile_cons] at h
    by_cases ha : p a
    · rcases List.mem_cons.mp hx with rfl | hx'
      · exact ha
      · exact ih (by simpa [ha] using h) x hx'
    · simp [ha] at h

theorem dropWhile_head_false {α : Type} (p : α → Bool) :
    ∀ (l : List α) (x : α) (xs : List α), l.dropWhile p = x :: xs → p x = false := by
  intro l
  induction l with
  | nil => intro x xs h; cases h
  | cons a rest ih =>
    intro x xs h
    rw [List.dropWhile_cons] at h
    by_cases ha : p a
    · exact ih x xs (by simpa [ha] using h)
    · have h' : a :: rest = x :: xs := by simpa [ha] using h
      obtain ⟨rfl, -⟩ := List.cons.inj h'
      exact Bool.eq_false_iff.mpr ha

theorem dropWhile_mem {α : Type} (p : α → Bool) :
    ∀ (l : List α) (x : α), x ∈ l.dropWhile p → x ∈ l := by
  intro l
  induction l with
  | nil => intro x hx; cases hx
  | cons a rest ih =>
    intro x hx
    rw [List.dropWhile_cons] at hx
    by_cases ha : p a
    · exact List.mem_cons_of_mem a (ih x (by simpa [ha] using hx))
    · simpa [ha] using hx

theorem map_eq_self_of_fixed {α : Type} (f : α → α) :
    ∀ l : List α, (∀ x ∈ l, f x = x) → l.map f = l := by
  intro l
  induction l with
  | nil => intro _; rfl
  | cons a rest ih =>
    intro h
    rw [List.map_cons, h a (List.mem_cons_self a rest),
      ih (fun x hx => h x (List.mem_cons_of_mem a hx))]

theorem findDirTok_mem (s dir : List Char) :
    ∀ rds : List (List Char), findDirTok s rds = some dir →
      ∃ rd ∈ rds, dir ∈ splitChar '|' rd := by
  intro rds
  induction rds with
  | nil => intro h; simp [findDirTok] at h
  | cons rd rest ih =>
    intro h
    by_cases hc : (splitChar '|' rd).length = 2 ∧ (splitChar '|' rd).getD 0 [] = s
    · rw [findDirTok, if_pos hc] at h
      obtain ⟨a, b, hab⟩ := List.length_eq_two.mp hc.1
      refine ⟨rd, List.mem_cons_self rd rest, ?_⟩
      have hdir : dir = (splitChar '|' rd).getD 1 [] := (Option.some.inj h).symm
      rw [hdir, hab]
      simp
    · rw [findDirTok, if_neg hc] at h
      obtain ⟨rd', hmem, hd⟩ := ih h
      exact ⟨rd', List.mem_cons_of_mem rd hmem, hd⟩

theorem processRefTok_eq_nil (rds : List (List Char)) (s : List Char)
    (h : processRefTok rds s = []) : s = [] ∧ findDirTok s rds = none := by
  unfold processRefTok at h
  cases hf : findDirTok s rds with
  | none => rw [hf] at h; exact ⟨h, rfl⟩
  | some dir => rw [hf] at h; simp at h

theorem processRefTok_semifree (r w s : List Char)
    (hs : s ∈ splitChar ';' w) :
    ';' ∉ processRefTok (splitChar ';' r) s := by
  have hsemi : ';' ∉ s := splitChar_not_mem ';' w s hs
  unfold processRefTok
  cases hf : findDirTok s (splitChar ';' r) with
  | none => exact hsemi
  | some dir =>
    obtain ⟨rd, hrd, hdir⟩ := findDirTok_mem s dir _ hf
    intro hmem
    rcases List.mem_append.mp hmem with h | h
    · exact hsemi h
    · rcases List.mem_cons.mp h with h' | h'
      · exact absurd h' (by decide)
      · exact splitChar_not_mem ';' r rd hrd (splitChar_mem '|' rd dir ';' hdir h')

/-- C9 amended: GetRef(GetRef(w, r), r) = GetRef(w, r) holds PROVIDED no
relation REF|DIR pair's REF component equals a token of the first
application's output (in particular, no pair's REF is another ref with its
direction already appended — the situation of the counterexample); and
whenever the way's first ref token is non-empty the output has exactly the
shape the spec describes: the way's refs in the way's order, separated by
';', with the direction appended to a ref exactly when a matching pair
exists. -/
theorem C9_amended (w r : List Char)
    (hm : ∀ t ∈ (splitChar ';' w).map (processRefTok (splitChar ';' r)),
        findDirTok t (splitChar ';' r) = none) :
    GetRef (GetRef w r) r = GetRef w r
      ∧ ∀ t0 ts, splitChar ';' w = t0 :: ts → t0 ≠ [] →
          GetRef w r
            = specRefJoin ((splitChar ';' w).map (processRefTok (splitChar ';' r))) := by
  have hPfree : ∀ t ∈ (splitChar ';' w).map (processRefTok (splitChar ';' r)), ';' ∉ t := by
    intro t ht
    obtain ⟨s, hs, rfl⟩ := List.mem_map.mp ht
    exact processRefTok_semifree r w s hs
  constructor
  · -- idempotence
    show GetRef (GetRef w r) r = GetRef w r
    rcases hdw : ((splitChar ';' w).map (processRefTok (splitChar ';' r))).dropWhile
        (fun t => t.isEmpty) with _ | ⟨t0, Q⟩
    · -- every processed token is empty: the output is empty and stays empty
      have hall : ∀ t ∈ (splitChar ';' w).map (processRefTok (splitChar ';' r)), t = [] := by
        intro t ht
        exact List.isEmpty_iff.mp (dropWhile_nil_forall _ _ hdw t ht)
      have hout : GetRef w r = [] := by
        show joinRefs _ = []
        rw [joinRefs_dropWhile, hdw]
        rfl
      have hnilmem : ([] : List Char) ∈ (splitChar ';' w).map (processRefTok (splitChar ';' r)) := by
        have : processRefTok (splitChar ';' r) (splitCharAux ';' w).1
            ∈ (splitChar ';' w).map (processRefTok (splitChar ';' r)) :=
          List.mem_map_of_mem _ (List.mem_cons_self _ _)
        have h0 := hall _ this
        rw [← h0]
        exact this
      have hfnil : findDirTok [] (splitChar ';' r) = none := hm [] hnilmem
      rw [hout]
      show joinRefs ((splitChar ';' []).map (processRefTok (splitChar ';' r))) = []
      have : splitChar ';' ([] : List Char) = [[]] := rfl
      rw [this]
      simp [processRefTok, hfnil, joinRefs]
    · -- the dropped token list has a non-empty head
      have ht0f : t0.isEmpty = false := dropWhile_head_false _ _ t0 Q hdw
      have ht0ne : t0 ≠ [] := by
        intro h
        rw [h] at ht0f
        simp at ht0f
      have hsub : ∀ u ∈ t0 :: Q,
          u ∈ (splitChar ';' w).map (processRefTok (splitChar ';' r)) := by
        intro u hu
        exact dropWhile_mem _ _ u (hdw ▸ hu)
      have hout : GetRef w r = specRefJoin (t0 :: Q) := by
        show joinRefs _ = _
        rw [joinRefs_dropWhile, hdw, joinRefs_cons_ne_nil t0 Q ht0ne]
      have hfree' : ∀ u ∈ t0 :: Q, ';' ∉ u := fun u hu => hPfree u (hsub u hu)
      have hsplit2 : splitChar ';' (GetRef w r) = t0 :: Q := by
        rw [hout]
        exact splitChar_specRefJoin (t0 :: Q) (List.cons_ne_nil t0 Q) hfree'
      show joinRefs ((splitChar ';' (GetRef w r)).map (processRefTok (splitChar ';' r)))
          = GetRef w r
      rw [hsplit2]
      have hid : (t0 :: Q).map (processRefTok (splitChar ';' r)) = t0 :: Q := by
        apply map_eq_self_of_fixed
        intro u hu
        have : findDirTok u (splitChar ';' r) = none := hm u (hsub u hu)
        simp [processRefTok, this]
      rw [hid, hout, joinRefs_cons_ne_nil t0 Q ht0ne]
  · -- the specified output shape
    intro t0 ts hsplit ht0
    show joinRefs _ = _
    rw [hsplit, List.map_cons]
    have hne : processRefTok (splitChar ';' r) t0 ≠ [] := by
      intro h
      exact ht0 (processRefTok_eq_nil _ t0 h).1
    rw [joinRefs_cons_ne_nil _ _ hne, ← List.map_cons]

/-- Witness for C9 at way_ref "A", relation_ref "A|B": the hypothesis holds
(the single output token "A B" matches no pair) and both conjuncts apply. -/
theorem C9_amended_witness :
    GetRef (GetRef ['A'] ['A', '|', 'B']) ['A', '|', 'B'] = GetRef ['A'] ['A', '|', 'B']
      ∧ GetRef ['A'] ['A', '|', 'B']
          = specRefJoin ((splitChar ';' ['A']).map
              (processRefTok (splitChar ';' ['A', '|', 'B']))) := by
  obtain ⟨h1, h2⟩ := C9_amended ['A'] ['A', '|', 'B'] (by decide)
  exact ⟨h1, h2 ['A'] [] (by decide) (by decide)⟩

/-!
The amended constructor claim for C3

Structured input: a list of ways, each with its own way-node list; flattening
produces the way-node sequence exactly as the upstream parser lays it out
(way_index = the way's position).  Provided every way's last way-node carries
the intersection flag, ConstructEdges succeeds and closes edges exactly at
intersection-flagged way-nodes, with per-way edge/node counts and no edge
spanning two ways.
-/

theorem drop_cons_getElem {α : Type} (W : List α) (n : Nat) (y : α) (l : List α)
    (h : W.drop n = y :: l) : W[n]? = some y := by
  have h0 := List.getElem?_drop W n 0
  rw [h] at h0
  simpa using h0.symm

theorem drop_cons_succ {α : Type} (W : List α) (n : Nat) (y : α) (l : List α)
    (h : W.drop n = y :: l) : W.drop (n + 1) = l := by
  have h1 : W.drop (n + 1) = (W.drop n).drop 1 := by rw [List.drop_drop]
  rw [h1, h]
  rfl

theorem lt_length_of_drop_cons {α : Type} (W : List α) (n : Nat) (y : α)
    (l : List α) (h : W.drop n = y :: l) : n < W.length := by
  by_contra hc
  push_neg at hc
  rw [List.drop_eq_nil_of_le hc] at h
  cases h

theorem setLast_append (f : Node → Node) (ns : List Node) (x : Node) :
    setLast f (ns ++ [x]) = ns ++ [f x] := by
  induction ns with
  | nil => rfl
  | cons n ns' ih =>
    cases ns' with
    | nil => rfl
    | cons m ms =>
      show setLast f (n :: ((m :: ms) ++ [x])) = n :: ((m :: ms) ++ [f x])
      have h1 : setLast f (n :: ((m :: ms) ++ [x]))
          = n :: setLast f ((m :: ms) ++ [x]) := rfl
      rw [h1, ih]

/-- The property an emitted edge should enjoy: at least two shape points, a
closing way-node that carries the intersection flag, no interior intersection
flags (the edge was closed at the FIRST flag), and a single way index across
the whole covered range of way-node positions (the edge does not span two
ways). -/
def edgeSpansOneWay (W : List OSMWayNode) (e : Edge) : Prop :=
  2 ≤ e.attributes.llcount
    ∧ (∀ x, e.llindex ≤ x → x + 1 ≤ e.llindex + e.attributes.llcount →
        ∃ wn, W[x]? = some wn ∧ wn.way_index = e.wayindex)
    ∧ (∃ wn, W[e.llindex + e.attributes.llcount - 1]? = some wn
        ∧ wn.node.intersection = true)
    ∧ (∀ x, e.llindex < x → x + 2 ≤ e.llindex + e.attributes.llcount →
        ∃ wn, W[x]? = some wn ∧ wn.node.intersection = false)

/-- A way together with its way-node primitives. -/
structure WaySpec where
  way : OSMWay
  wnodes : List OSMNode
deriving DecidableEq, Inhabited

/-- Consistency of a structured way: the record's node_count matches, the way
has at least two way-nodes (a way is a polyline), fewer than 2^16 (the 16-bit
llcount field), and its LAST way-node carries the intersection flag (the
upstream parser marks way endpoints as intersections). -/
def waySpecOk (ws : WaySpec) : Prop :=
  ws.way.node_count = ws.wnodes.length
    ∧ 2 ≤ ws.wnodes.length
    ∧ ws.wnodes.length ≤ 65535
    ∧ ws.wnodes.getLast?.map (fun n => n.intersection) = some true

instance (ws : WaySpec) : Decidable (waySpecOk ws) := by
  unfold waySpecOk
  exact inferInstance

/-- Edges a way contributes: one per intersection-flagged way-node after its
first. -/
def wayEdgeCount (ws : WaySpec) : Nat :=
  (ws.wnodes.drop 1).countP (fun n => n.intersection)

def totalEdges : List WaySpec → Nat
  | [] => 0
  | ws :: rest => wayEdgeCount ws + totalEdges rest

/-- The way-node sequence as the upstream parser lays it out: each way's
nodes in order, tagged with the way's position. -/
def flattenFrom : Nat → List WaySpec → List OSMWayNode
  | _, [] => []
  | i, ws :: rest => ws.wnodes.map (fun n => (⟨n, i⟩ : OSMWayNode)) ++ flattenFrom (i + 1) rest

/-!
Step equations for constructInner, one per branch of the loop body.
-/

theorem constructInner_step_plain (pred : OSMNode → GraphId)
    (waysLen total : Nat) (way : OSMWay) (lwni : Nat) (wn : OSMWayNode)
    (rest : List OSMWayNode) (cur : Nat) (edge : Edge) (ns : List Node)
    (es : List Edge) (hcur : cur < total)
    (hint : wn.node.intersection = false)
    (hsig : wn.node.traffic_signal = false) :
    constructInner pred waysLen total way lwni (wn :: rest) cur edge ns es
      = constructInner pred waysLen total way lwni rest (cur + 1)
          { edge with attributes := { edge.attributes with
              llcount := (edge.attributes.llcount + 1) % 65536 } } ns es := by
  rw [constructInner]
  simp [hcur, hint, hsig]

theorem constructInner_step_signal (pred : OSMNode → GraphId)
    (waysLen total : Nat) (way : OSMWay) (lwni : Nat) (wn : OSMWayNode)
    (rest : List OSMWayNode) (cur : Nat) (edge : Edge) (ns : List Node)
    (es : List Edge) (hcur : cur < total)
    (hint : wn.node.intersection = false)
    (hsig : wn.node.traffic_signal = true) :
    constructInner pred waysLen total way lwni (wn :: rest) cur edge ns es
      = constructInner pred waysLen total way lwni rest (cur + 1)
          { edge with attributes := { edge.attributes with
              llcount := (edge.attributes.llcount + 1) % 65536
              traffic_signal := true
              forward_signal := wn.node.forward_signal
              backward_signal := wn.node.backward_signal } } ns es := by
  rw [constructInner]
  simp [hcur, hint, hsig]

theorem constructInner_step_close_restart (pred : OSMNode → GraphId)
    (waysLen total : Nat) (way : OSMWay) (lwni : Nat) (wn : OSMWayNode)
    (rest : List OSMWayNode) (cur : Nat) (edge : Edge) (ns : List Node)
    (es : List Edge) (hcur : cur < total)
    (hint : wn.node.intersection = true)
    (hb : cur + 1 ≠ lwni) :
    constructInner pred waysLen total way lwni (wn :: rest) cur edge ns es
      = constructInner pred waysLen total way lwni rest (cur + 1)
          (Edge.make_edge (ns.length + 1) wn.way_index (cur + 1) way)
          (ns ++ [⟨{ wn.node with link_edge := wn.node.link_edge || way.link },
                   waysLen, waysLen,
                   pred { wn.node with link_edge := wn.node.link_edge || way.link }⟩])
          (es ++ [{ edge with
              attributes := { edge.attributes with
                llcount := (edge.attributes.llcount + 1) % 65536 }
              targetnode := ns.length }]) := by
  rw [constructInner]
  have hb' : ((cur + 1 != lwni)) = true := by
    rw [bne_iff_ne]
    exact hb
  simp only [hcur, if_pos, hint, hb', if_true, Bool.true_eq_false, ite_false,
    ite_true, List.length_append, List.length_cons, List.length_nil]
  rw [setLast_append]

theorem constructInner_step_close_last (pred : OSMNode → GraphId)
    (waysLen total : Nat) (way : OSMWay) (lwni : Nat) (wn : OSMWayNode)
    (rest : List OSMWayNode) (cur : Nat) (edge : Edge) (ns : List Node)
    (es : List Edge) (hcur : cur < total)
    (hint : wn.node.intersection = true)
    (hb : cur + 1 = lwni) :
    constructInner pred waysLen total way lwni (wn :: rest) cur edge ns es
      = some (cur + 2, rest,
          ns ++ [⟨{ wn.node with link_edge := wn.node.link_edge || way.link },
                  noEdge, waysLen,
                  pred { wn.node with link_edge := wn.node.link_edge || way.link }⟩],
          es ++ [{ edge with
              attributes := { edge.attributes with
                llcount := (edge.attributes.llcount + 1) % 65536 }
              targetnode := ns.length }]) := by
  rw [constructInner]
  have hb' : ((cur + 1 != lwni)) = false := by
    simp [bne_iff_ne, hb]
  simp [hcur, hint, hb']

/-- The edge closed at way-node position cur+1 spans one way and is closed at
an intersection flag, provided the open-edge invariants held. -/
theorem closed_edge_spans (W : List OSMWayNode) (edge : Edge) (cur wi tgt : Nat)
    (wn : OSMWayNode)
    (hewi : edge.wayindex = wi)
    (hlle : edge.llindex ≤ cur)
    (hnw : (edge.attributes.llcount + 1) % 65536 = cur + 2 - edge.llindex)
    (hwn : W[cur + 1]? = some wn)
    (hwnwi : wn.way_index = wi)
    (hflag : wn.node.intersection = true)
    (hintr : ∀ x, edge.llindex < x → x ≤ cur →
      ∃ wn', W[x]? = some wn' ∧ wn'.node.intersection = false)
    (huni : ∀ x, edge.llindex ≤ x → x ≤ cur →
      ∃ wn', W[x]? = some wn' ∧ wn'.way_index = wi) :
    edgeSpansOneWay W { edge with
      attributes := { edge.attributes with
        llcount := (edge.attributes.llcount + 1) % 65536 }
      targetnode := tgt } := by
  unfold edgeSpansOneWay
  refine ⟨?_, ?_, ?_, ?_⟩
  · show 2 ≤ (edge.attributes.llcount + 1) % 65536
    rw [hnw]
    omega
  · intro x hx1 hx2
    simp only at hx1 hx2 ⊢
    rw [hnw] at hx2
    by_cases hxc : x ≤ cur
    · obtain ⟨wn', h1, h2⟩ := huni x hx1 hxc
      exact ⟨wn', h1, h2.trans hewi.symm⟩
    · have hx : x = cur + 1 := by omega
      subst hx
      exact ⟨wn, hwn, hwnwi.trans hewi.symm⟩
  · simp only
    have hidx : edge.llindex + (edge.attributes.llcount + 1) % 65536 - 1 = cur + 1 := by
      rw [hnw]
      omega
    rw [hidx]
    exact ⟨wn, hwn, hflag⟩
  · intro x hx1 hx2
    simp only at hx1 hx2 ⊢
    rw [hnw] at hx2
    exact hintr x hx1 (by omega)

/-- The inner loop of ConstructEdges consumes exactly the remaining way-nodes
of the current way (last one intersection-flagged), closes one edge per
flagged way-node, and every closed edge spans a single way. -/
theorem constructInner_run (pred : OSMNode → GraphId) (waysLen : Nat)
    (W : List OSMWayNode) (way : OSMWay) (wi : Nat) (T : List OSMWayNode) :
    ∀ (sub : List OSMWayNode) (cur : Nat) (edge : Edge) (ns : List Node)
      (es : List Edge),
      sub ≠ [] →
      (∀ wn ∈ sub, wn.way_index = wi) →
      sub.getLast?.map (fun wn => wn.node.intersection) = some true →
      W.drop (cur + 1) = sub ++ T →
      edge.wayindex = wi →
      edge.llindex ≤ cur →
      edge.attributes.llcount = cur + 1 - edge.llindex →
      cur + 1 - edge.llindex + sub.length ≤ 65535 →
      (∀ x, edge.llindex < x → x ≤ cur →
        ∃ wn, W[x]? = some wn ∧ wn.node.intersection = false) →
      (∀ x, edge.llindex ≤ x → x ≤ cur →
        ∃ wn, W[x]? = some wn ∧ wn.way_index = wi) →
      ∃ ns' es',
        constructInner pred waysLen W.length way (cur + sub.length) (sub ++ T)
            cur edge ns es
          = some (cur + sub.length + 1, T, ns ++ ns', es ++ es')
          ∧ es'.length = sub.countP (fun wn => wn.node.intersection)
          ∧ ns'.length = es'.length
          ∧ ∀ e ∈ es', edgeSpansOneWay W e := by
  intro sub
  induction sub with
  | nil => intro cur edge ns es hne; exact absurd rfl hne
  | cons wn rest ih =>
    intro cur edge ns es _ hwi hlast hdrop hewi hlle hllc hbound hintr huni
    have hdropc : W.drop (cur + 1) = wn :: (rest ++ T) := by simpa using hdrop
    have hwn : W[cur + 1]? = some wn :=
      drop_cons_getElem W (cur + 1) wn (rest ++ T) hdropc
    have hdrop2 : W.drop (cur + 2) = rest ++ T :=
      drop_cons_succ W (cur + 1) wn (rest ++ T) hdropc
    have hcurlt : cur < W.length := by
      have := lt_length_of_drop_cons W (cur + 1) wn (rest ++ T) hdropc
      omega
    have hwnwi : wn.way_index = wi := hwi wn (List.mem_cons_self _ _)
    have hb0 : cur + 1 - edge.llindex + (rest.length + 1) ≤ 65535 := by
      simpa using hbound
    have hnowrap : (edge.attributes.llcount + 1) % 65536 = cur + 2 - edge.llindex := by
      have hlt : edge.attributes.llcount + 1 < 65536 := by
        rw [hllc]
        omega
      rw [Nat.mod_eq_of_lt hlt, hllc]
      omega
    cases hflag : wn.node.intersection with
    | true =>
      cases rest with
      | nil =>
        -- the way's last way-node: close and break out of the inner loop
        refine ⟨[⟨{ wn.node with link_edge := wn.node.link_edge || way.link },
                  noEdge, waysLen,
                  pred { wn.node with link_edge := wn.node.link_edge || way.link }⟩],
                [{ edge with
                    attributes := { edge.attributes with
                      llcount := (edge.attributes.llcount + 1) % 65536 }
                    targetnode := ns.length }], ?_, ?_, rfl, ?_⟩
        · show constructInner pred waysLen W.length way (cur + 1) (wn :: T)
              cur edge ns es = _
          rw [constructInner_step_close_last pred waysLen W.length way (cur + 1)
            wn T cur edge ns es hcurlt hflag rfl]
          rfl
        · simp [List.countP_cons, hflag]
        · intro e he
          rw [List.mem_singleton] at he
          subst he
          exact closed_edge_spans W edge cur wi ns.length wn hewi hlle hnowrap
            hwn hwnwi hflag hintr huni
      | cons r1 rest' =>
        -- an interior intersection: close and restart a new edge
        have hlw : cur + (wn :: r1 :: rest').length = cur + 1 + (r1 :: rest').length := by
          simp only [List.length_cons]
          omega
        have hbneq : cur + 1 ≠ cur + (wn :: r1 :: rest').length := by
          simp only [List.length_cons]
          omega
        have hstep := constructInner_step_close_restart pred waysLen W.length way
          (cur + (wn :: r1 :: rest').length) wn (r1 :: rest' ++ T) cur edge ns es
          hcurlt hflag hbneq
        obtain ⟨nsI, esI, heq, hlen1, hlen2, hsp⟩ :=
          ih (cur + 1)
            (Edge.make_edge (ns.length + 1) wn.way_index (cur + 1) way)
            (ns ++ [⟨{ wn.node with link_edge := wn.node.link_edge || way.link },
                     waysLen, waysLen,
                     pred { wn.node with link_edge := wn.node.link_edge || way.link }⟩])
            (es ++ [{ edge with
                attributes := { edge.attributes with
                  llcount := (edge.attributes.llcount + 1) % 65536 }
                targetnode := ns.length }])
            (List.cons_ne_nil r1 rest')
            (fun x hx => hwi x (List.mem_cons_of_mem wn hx))
            (by rwa [List.getLast?_cons_cons] at hlast)
            (by simpa using hdrop2)
            hwnwi
            (Nat.le_refl (cur + 1))
            (by simp [Edge.make_edge])
            (by
              simp only [Edge.make_edge]
              simp only [List.length_cons] at hb0 ⊢
              omega)
            (by intro x hx1 hx2; simp [Edge.make_edge] at hx1; omega)
            (by
              intro x hx1 hx2
              simp only [Edge.make_edge] at hx1
              have hx : x = cur + 1 := by omega
              subst hx
              exact ⟨wn, hwn, hwnwi⟩)
        refine ⟨⟨{ wn.node with link_edge := wn.node.link_edge || way.link },
                  waysLen, waysLen,
                  pred { wn.node with link_edge := wn.node.link_edge || way.link }⟩ :: nsI,
                { edge with
                    attributes := { edge.attributes with
                      llcount := (edge.attributes.llcount + 1) % 65536 }
                    targetnode := ns.length } :: esI, ?_, ?_, ?_, ?_⟩
        · show constructInner pred waysLen W.length way
              (cur + (wn :: r1 :: rest').length) ((wn :: r1 :: rest') ++ T)
              cur edge ns es = _
          rw [hlw] at hstep
          rw [hlw]
          exact hstep.trans (heq.trans (by simp [List.append_assoc]))
        · simp [List.countP_cons, hflag, hlen1]
        · simp [List.length_cons, hlen2, hlen1]
        · intro e he
          rcases List.mem_cons.mp he with rfl | he'
          · exact closed_edge_spans W edge cur wi ns.length wn hewi hlle hnowrap
              hwn hwnwi hflag hintr huni
          · exact hsp e he'
    | false =>
      cases rest with
      | nil =>
        exfalso
        have : wn.node.intersection = true := by
          simpa using hlast
        rw [hflag] at this
        cases this
      | cons r1 rest' =>
        have hlw : cur + (wn :: r1 :: rest').length = cur + 1 + (r1 :: rest').length := by
          simp only [List.length_cons]
          omega
        have hihargs :
            ∀ edge' : Edge, edge'.wayindex = wi → edge'.llindex = edge.llindex →
            edge'.attributes.llcount = (edge.attributes.llcount + 1) % 65536 →
            ∃ ns' es',
              constructInner pred waysLen W.length way (cur + 1 + (r1 :: rest').length)
                  ((r1 :: rest') ++ T) (cur + 1) edge' ns es
                = some (cur + 1 + (r1 :: rest').length + 1, T, ns ++ ns', es ++ es')
                ∧ es'.length = (r1 :: rest').countP (fun wn => wn.node.intersection)
                ∧ ns'.length = es'.length
                ∧ ∀ e ∈ es', edgeSpansOneWay W e := by
          intro edge' hw1 hw2 hw3
          apply ih (cur + 1) edge' ns es
            (List.cons_ne_nil r1 rest')
            (fun x hx => hwi x (List.mem_cons_of_mem wn hx))
            (by rwa [List.getLast?_cons_cons] at hlast)
            (by simpa using hdrop2)
            hw1
            (by rw [hw2]; omega)
            (by rw [hw3, hw2, hnowrap])
            (by rw [hw2]; simp [List.length_cons] at hb0 ⊢; omega)
            (by
              intro x hx1 hx2
              rw [hw2] at hx1
              by_cases hxc : x ≤ cur
              · exact hintr x hx1 hxc
              · have hx : x = cur + 1 := by omega
                subst hx
                exact ⟨wn, hwn, hflag⟩)
            (by
              intro x hx1 hx2
              rw [hw2] at hx1
              by_cases hxc : x ≤ cur
              · exact huni x hx1 hxc
              · have hx : x = cur + 1 := by omega
                subst hx
                exact ⟨wn, hwn, hwnwi⟩)
        cases hsig : wn.node.traffic_signal with
        | true =>
          obtain ⟨ns', es', heq, hlen1, hlen2, hsp⟩ :=
            hihargs { edge with attributes := { edge.attributes with
                llcount := (edge.attributes.llcount + 1) % 65536
                traffic_signal := true
                forward_signal := wn.node.forward_signal
                backward_signal := wn.node.backward_signal } } hewi rfl rfl
          refine ⟨ns', es', ?_, ?_, hlen2, hsp⟩
          · show constructInner pred waysLen W.length way
                (cur + (wn :: r1 :: rest').length) ((wn :: r1 :: rest') ++ T)
                cur edge ns es = _
            rw [List.cons_append,
              constructInner_step_signal pred waysLen W.length way
                (cur + (wn :: r1 :: rest').length) wn (r1 :: rest' ++ T)
                cur edge ns es hcurlt hflag hsig,
              hlw, heq]
          · rw [hlen1]
            simp [List.countP_cons, hflag]
        | false =>
          obtain ⟨ns', es', heq, hlen1, hlen2, hsp⟩ :=
            hihargs { edge with attributes := { edge.attributes with
                llcount := (edge.attributes.llcount + 1) % 65536 } } hewi rfl rfl
          refine ⟨ns', es', ?_, ?_, hlen2, hsp⟩
          · show constructInner pred waysLen W.length way
                (cur + (wn :: r1 :: rest').length) ((wn :: r1 :: rest') ++ T)
                cur edge ns es = _
            rw [List.cons_append,
              constructInner_step_plain pred waysLen W.length way
                (cur + (wn :: r1 :: rest').length) wn (r1 :: rest' ++ T)
                cur edge ns es hcurlt hflag hsig,
              hlw, heq]
          · rw [hlen1]
            simp [List.countP_cons, hflag]

theorem drop_append_cancel {α : Type} (W l₁ l₂ : List α) (n : Nat)
    (h : W.drop n = l₁ ++ l₂) : W.drop (n + l₁.length) = l₂ := by
  have h1 : W.drop (n + l₁.length) = (W.drop n).drop l₁.length := by
    rw [List.drop_drop]
  rw [h1, h, List.drop_left]

/-- One unfolding of the outer loop of ConstructEdges when the next record is
available and its way exists. -/
theorem constructOuter_step (ways : List OSMWay) (pred : OSMNode → GraphId)
    (waysLen total fuel : Nat) (n0 : OSMNode) (wi0 : Nat)
    (suffix : List OSMWayNode) (cur : Nat) (ns : List Node) (es : List Edge)
    (way : OSMWay) (hget : ways.get? wi0 = some way) :
    constructOuter ways pred waysLen total (fuel + 1)
        ((⟨n0, wi0⟩ : OSMWayNode) :: suffix) cur ns es
      = match constructInner pred waysLen total way (cur + way.node_count - 1)
            suffix cur (Edge.make_edge ns.length wi0 cur way)
            (ns ++ [⟨{ n0 with link_edge := n0.link_edge || way.link },
                     waysLen, noEdge,
                     pred { n0 with link_edge := n0.link_edge || way.link }⟩]) es with
        | none => none
        | some (cur2, suffix2, ns2, es2) =>
          constructOuter ways pred waysLen total fuel suffix2 cur2 ns2 es2 := by
  simp only [constructOuter]
  rw [hget]

/-- The outer loop of ConstructEdges over a structured list of consistent
ways: it consumes the whole flattened way-node sequence and returns the node
and edge sequences with the per-way counts and one-way spans. -/
theorem constructOuter_run (pred : OSMNode → GraphId) (ways : List OSMWay)
    (W : List OSMWayNode) :
    ∀ (wss : List WaySpec) (wi0 cur fuel : Nat) (ns : List Node) (es : List Edge),
      (∀ ws ∈ wss, waySpecOk ws) →
      W.drop cur = flattenFrom wi0 wss →
      (∀ j ws, wss.get? j = some ws → ways.get? (wi0 + j) = some ws.way) →
      (flattenFrom wi0 wss).length + 1 ≤ fuel →
      ∃ ns' es',
        constructOuter ways pred ways.length W.length fuel (flattenFrom wi0 wss)
            cur ns es
          = some (ns ++ ns', es ++ es')
          ∧ es'.length = totalEdges wss
          ∧ ns'.length = wss.length + totalEdges wss
          ∧ ∀ e ∈ es', edgeSpansOneWay W e := by
  intro wss
  induction wss with
  | nil =>
    intro wi0 cur fuel ns es _ _ _ hfuel
    obtain ⟨f, rfl⟩ : ∃ f, fuel = f + 1 := ⟨fuel - 1, by omega⟩
    exact ⟨[], [], by simp [flattenFrom, constructOuter], rfl, rfl, by simp⟩
  | cons ws rest ih =>
    intro wi0 cur fuel ns es hok hdrop hgets hfuel
    obtain ⟨hw1, hw2, hw3, hw4⟩ := hok ws (List.mem_cons_self ws rest)
    obtain ⟨f, rfl⟩ : ∃ f, fuel = f + 1 := ⟨fuel - 1, by omega⟩
    rcases hnodes : ws.wnodes with _ | ⟨n0, _ | ⟨m, ms⟩⟩
    · rw [hnodes] at hw2
      simp only [List.length_nil] at hw2
      exact absurd hw2 (by decide)
    · rw [hnodes] at hw2
      simp only [List.length_cons, List.length_nil] at hw2
      exact absurd hw2 (by decide)
    · have hget : ways.get? wi0 = some ws.way := by
        have := hgets 0 ws rfl
        simpa using this
      have hflatcons : flattenFrom wi0 (ws :: rest)
          = (⟨n0, wi0⟩ : OSMWayNode) ::
              ((m :: ms).map (fun n => (⟨n, wi0⟩ : OSMWayNode))
                ++ flattenFrom (wi0 + 1) rest) := by
        show ws.wnodes.map (fun n => (⟨n, wi0⟩ : OSMWayNode))
            ++ flattenFrom (wi0 + 1) rest = _
        rw [hnodes]
        simp [List.map_cons, List.cons_append]
      have hdropc : W.drop cur
          = (⟨n0, wi0⟩ : OSMWayNode) ::
              ((m :: ms).map (fun n => (⟨n, wi0⟩ : OSMWayNode))
                ++ flattenFrom (wi0 + 1) rest) := by
        rw [hdrop, hflatcons]
      have hn0 : W[cur]? = some (⟨n0, wi0⟩ : OSMWayNode) :=
        drop_cons_getElem W cur _ _ hdropc
      have hdrop1 : W.drop (cur + 1)
          = (m :: ms).map (fun n => (⟨n, wi0⟩ : OSMWayNode))
              ++ flattenFrom (wi0 + 1) rest :=
        drop_cons_succ W cur _ _ hdropc
      obtain ⟨wl, hgl, hwlint⟩ :
          ∃ wl, (m :: ms).getLast? = some wl ∧ wl.intersection = true := by
        rw [hnodes, List.getLast?_cons_cons] at hw4
        rcases hgl : (m :: ms).getLast? with _ | wl
        · rw [hgl] at hw4
          simp at hw4
        · rw [hgl] at hw4
          exact ⟨wl, rfl, by simpa using hw4⟩
      have hw3' : ms.length + 2 ≤ 65535 := by
        rw [hnodes] at hw3
        simp only [List.length_cons] at hw3
        omega
      obtain ⟨nsI, esI, heqI, hlenI1, hlenI2, hspI⟩ :=
        constructInner_run pred ways.length W ws.way wi0
          (flattenFrom (wi0 + 1) rest)
          ((m :: ms).map (fun n => (⟨n, wi0⟩ : OSMWayNode)))
          cur
          (Edge.make_edge ns.length wi0 cur ws.way)
          (ns ++ [⟨{ n0 with link_edge := n0.link_edge || ws.way.link },
                   ways.length, noEdge,
                   pred { n0 with link_edge := n0.link_edge || ws.way.link }⟩])
          es
          (by simp)
          (by
            intro wn hwn
            obtain ⟨n, _, rfl⟩ := List.mem_map.mp hwn
            rfl)
          (by
            rw [List.getLast?_map, hgl]
            simp [hwlint])
          hdrop1
          (by simp [Edge.make_edge])
          (by simp [Edge.make_edge])
          (by
            simp only [Edge.make_edge]
            omega)
          (by
            simp only [Edge.make_edge, List.length_map, List.length_cons]
            omega)
          (by
            intro x hx1 hx2
            simp only [Edge.make_edge] at hx1
            exact absurd hx2 (by omega))
          (by
            intro x hx1 hx2
            simp only [Edge.make_edge] at hx1
            have hx : x = cur := by omega
            subst hx
            exact ⟨⟨n0, wi0⟩, hn0, rfl⟩)
      have hlwni : cur + ws.way.node_count - 1
          = cur + ((m :: ms).map (fun n => (⟨n, wi0⟩ : OSMWayNode))).length := by
        rw [hw1, hnodes]
        simp only [List.length_cons, List.length_map]
        omega
      have hrec := constructOuter_step ways pred ways.length W.length f n0 wi0
        ((m :: ms).map (fun n => (⟨n, wi0⟩ : OSMWayNode))
          ++ flattenFrom (wi0 + 1) rest)
        cur ns es ws.way hget
      have hdropR : W.drop
            (cur + ((m :: ms).map (fun n => (⟨n, wi0⟩ : OSMWayNode))).length + 1)
          = flattenFrom (wi0 + 1) rest := by
        have h := drop_append_cancel W
          (ws.wnodes.map (fun n => (⟨n, wi0⟩ : OSMWayNode)))
          (flattenFrom (wi0 + 1) rest) cur (by rw [hdrop]; rfl)
        have hlen : (ws.wnodes.map (fun n => (⟨n, wi0⟩ : OSMWayNode))).length
            = ((m :: ms).map (fun n => (⟨n, wi0⟩ : OSMWayNode))).length + 1 := by
          rw [hnodes]
          simp [List.length_cons]
        rw [hlen] at h
        exact h
      have hgetsR : ∀ j ws', rest.get? j = some ws' →
          ways.get? (wi0 + 1 + j) = some ws'.way := by
        intro j ws' hj
        have h := hgets (j + 1) ws' (by simpa using hj)
        have hidx : wi0 + (j + 1) = wi0 + 1 + j := by omega
        rwa [hidx] at h
      have hfuelR : (flattenFrom (wi0 + 1) rest).length + 1 ≤ f := by
        have hlenflat : (flattenFrom wi0 (ws :: rest)).length
            = ws.wnodes.length + (flattenFrom (wi0 + 1) rest).length := by
          show (ws.wnodes.map _ ++ _).length = _
          simp [List.length_append, List.length_map]
        rw [hlenflat, hnodes] at hfuel
        simp only [List.length_cons] at hfuel
        omega
      obtain ⟨nsR, esR, heqR, hlenR1, hlenR2, hspR⟩ :=
        ih (wi0 + 1)
          (cur + ((m :: ms).map (fun n => (⟨n, wi0⟩ : OSMWayNode))).length + 1) f
          ((ns ++ [⟨{ n0 with link_edge := n0.link_edge || ws.way.link },
                    ways.length, noEdge,
                    pred { n0 with link_edge := n0.link_edge || ws.way.link }⟩]) ++ nsI)
          (es ++ esI)
          (fun w hw => hok w (List.mem_cons_of_mem ws hw))
          hdropR hgetsR hfuelR
      have hwec : wayEdgeCount ws
          = List.countP (fun wn => wn.node.intersection)
              ((m :: ms).map (fun n => (⟨n, wi0⟩ : OSMWayNode))) := by
        rw [List.countP_map]
        show (ws.wnodes.drop 1).countP _ = _
        rw [hnodes]
        rfl
      have htot : totalEdges (ws :: rest) = wayEdgeCount ws + totalEdges rest := rfl
      refine ⟨⟨{ n0 with link_edge := n0.link_edge || ws.way.link },
                ways.length, noEdge,
                pred { n0 with link_edge := n0.link_edge || ws.way.link }⟩
                :: (nsI ++ nsR),
              esI ++ esR, ?_, ?_, ?_, ?_⟩
      · rw [hflatcons, hrec, hlwni, heqI]
        show constructOuter ways pred ways.length W.length f
            (flattenFrom (wi0 + 1) rest)
            (cur + ((m :: ms).map (fun n => (⟨n, wi0⟩ : OSMWayNode))).length + 1)
            ((ns ++ [⟨{ n0 with link_edge := n0.link_edge || ws.way.link },
                      ways.length, noEdge,
                      pred { n0 with link_edge := n0.link_edge || ws.way.link }⟩]) ++ nsI)
            (es ++ esI) = _
        rw [heqR]
        simp [List.append_assoc]
      · simp only [List.length_append, hlenI1, hlenR1, htot, hwec]
      · simp only [List.length_cons, List.length_append, hlenI2, hlenI1, hlenR2,
          htot, hwec]
        omega
      · intro e he
        rcases List.mem_append.mp he with h | h
        · exact hspI e h
        · exact hspR e h

/-- C3 amended: PROVIDED every way's last way-node carries the intersection
flag (as the upstream parser guarantees for way endpoints — the situation of
the counterexample is an unflagged last way-node, on which the constructor
runs into the following way and off the end of the sequence),
ConstructEdges succeeds; it closes one edge per intersection-flagged way-node
after each way's first (so a way with exactly two way-nodes both flagged
produces exactly one Edge and two Node records), emits one more Node record
per way than edges, and every edge closes at an intersection-flagged
way-node, has no interior intersection flag and covers way-nodes of a single
way only. -/
theorem C3_amended (wss : List WaySpec) (pred : OSMNode → GraphId)
    (hok : ∀ ws ∈ wss, waySpecOk ws) :
    ∃ ns es,
      ConstructEdges (wss.map (fun ws => ws.way)) (flattenFrom 0 wss) pred
          = some (ns, es)
        ∧ es.length = totalEdges wss
        ∧ ns.length = wss.length + totalEdges wss
        ∧ ∀ e ∈ es, edgeSpansOneWay (flattenFrom 0 wss) e := by
  obtain ⟨ns', es', h1, h2, h3, h4⟩ :=
    constructOuter_run pred (wss.map (fun ws => ws.way)) (flattenFrom 0 wss)
      wss 0 0 ((flattenFrom 0 wss).length + 1) [] []
      hok
      (by rw [List.drop_zero])
      (by
        intro j ws hj
        rw [Nat.zero_add, List.get?_map, hj]
        rfl)
      (Nat.le_refl _)
  exact ⟨ns', es', by simpa [ConstructEdges] using h1, h2, by simpa using h3, h4⟩

/-- The single concrete way for the C3 witness: two way-nodes, both flagged
as intersections. -/
def c3ws : WaySpec := ⟨⟨2, 5, true, true, false⟩, [mkIntNode 20, mkIntNode 21]⟩

/-- Witness for C3 at the claim's own boundary case: a way with exactly two
way-nodes both flagged intersection produces exactly one Edge and two Node
records. -/
theorem C3_amended_witness :
    ∃ ns es,
      ConstructEdges ([c3ws].map (fun ws => ws.way)) (flattenFrom 0 [c3ws]) predTriv
          = some (ns, es)
        ∧ es.length = 1 ∧ ns.length = 2 := by
  obtain ⟨ns, es, h1, h2, h3, _⟩ := C3_amended [c3ws] predTriv (by
    intro ws hws
    rw [List.mem_singleton] at hws
    subst hws
    decide)
  refine ⟨ns, es, h1, ?_, ?_⟩
  · rw [h2]
    decide
  · rw [h3]
    decide

end Mjolnir
